import Mathlib

/-!
Verification of the picview image viewer core (picview.js): the PicViewMap
view-mapping module, the PicViewInputDriver gesture recognizer and the
PicView gesture-interpretation layer, shallowly embedded over exact
rational arithmetic.  Definitions are direct translations of the source
functions; numbers are modelled by the rationals, JavaScript undefined by
Option, and thrown exceptions by Except / Option error values.
-/

/-- State of a PicViewMap object: the four reference dimensions the map was
computed for and the destination rectangle on the canvas. -/
@[ext]
structure PicViewMap where
  canvas_width : ℚ
  canvas_height : ℚ
  image_width : ℚ
  image_height : ℚ
  dx : ℚ
  dy : ℚ
  dw : ℚ
  dh : ℚ
  deriving DecidableEq

/-- The PicViewMap constructor.  All four dimensions must be positive
(the source throws otherwise, modelled by none); the typeof and isFinite
checks of the source cannot fail over the rationals.  Produces the full
view: the image scaled to fit the canvas, centered. -/
def PicViewMap.create (cnv_w cnv_h img_w img_h : ℚ) : Option PicViewMap :=
  if ¬(0 < cnv_w) ∨ ¬(0 < cnv_h) ∨ ¬(0 < img_w) ∨ ¬(0 < img_h) then
    none
  else
    let sw := img_w / cnv_w
    let sh := img_h / cnv_h
    let sc := if sw < sh then sh else sw
    let scale := if sc ≤ 1 then 1 else 1 / sc
    let rw := img_w * scale
    let rh := img_h * scale
    some {
      canvas_width := cnv_w, canvas_height := cnv_h,
      image_width := img_w, image_height := img_h,
      dx := (cnv_w - rw) / 2, dy := (cnv_h - rh) / 2,
      dw := rw, dh := rh }

/-- The check instance function: exact equality test of the four reference
dimensions. -/
def PicViewMap.check (m : PicViewMap) (cnv_w cnv_h img_w img_h : ℚ) : Bool :=
  if m.canvas_width = cnv_w ∧ m.canvas_height = cnv_h ∧
      m.image_width = img_w ∧ m.image_height = img_h then true else false

/-- One axis of the clamping step shared by translate and zoom (the source
inlines this identical code twice): if the destination extent fits in the
canvas, force centering; otherwise clamp the origin so the near edge is at
most 0 and the far edge at least the canvas extent. -/
def clampAxis (cnv dim r : ℚ) : ℚ :=
  if dim ≤ cnv then (cnv - dim) / 2
  else if (if 0 < r then 0 else r) < cnv - dim then cnv - dim
  else if 0 < r then 0 else r

/-- The translate instance function: apply the raw displacement to the
destination origin, re-clamp per axis, and report whether (dx, dy)
actually changed. -/
def PicViewMap.translate (m : PicViewMap) (new_x new_y last_x last_y : ℚ) :
    PicViewMap × Bool :=
  let disp_x := new_x - last_x
  let disp_y := new_y - last_y
  let rx := clampAxis m.canvas_width m.dw (m.dx + disp_x)
  let ry := clampAxis m.canvas_height m.dh (m.dy + disp_y)
  let changed := if m.dx = rx ∧ m.dy = ry then false else true
  ({ m with dx := rx, dy := ry }, changed)

/-- Folding a sequence of translate calls over a view, each entry giving
(new_x, new_y, last_x, last_y). -/
def translateSeq (m : PicViewMap) (l : List (ℚ × ℚ × ℚ × ℚ)) : PicViewMap :=
  l.foldl (fun v q => (v.translate q.1 q.2.1 q.2.2.1 q.2.2.2).1) m

/-- The copyFrom instance function: replace the state of the target view
with the state of the given view (all eight fields). -/
def PicViewMap.copyFrom (m vw : PicViewMap) : PicViewMap :=
  { canvas_width := vw.canvas_width, canvas_height := vw.canvas_height,
    image_width := vw.image_width, image_height := vw.image_height,
    dx := vw.dx, dy := vw.dy, dw := vw.dw, dh := vw.dh }

/-- The equalTo instance function: structural equality of all eight
fields. -/
def PicViewMap.equalTo (m vw : PicViewMap) : Bool :=
  if m.canvas_width = vw.canvas_width ∧ m.canvas_height = vw.canvas_height ∧
      m.image_width = vw.image_width ∧ m.image_height = vw.image_height ∧
      m.dx = vw.dx ∧ m.dy = vw.dy ∧ m.dw = vw.dw ∧ m.dh = vw.dh
  then true else false

/-- Agreement of the four base dimensions, against which zoom validates
its full-view argument. -/
def sameDims (a b : PicViewMap) : Prop :=
  a.canvas_width = b.canvas_width ∧ a.canvas_height = b.canvas_height ∧
  a.image_width = b.image_width ∧ a.image_height = b.image_height

instance (a b : PicViewMap) : Decidable (sameDims a b) := by
  unfold sameDims; infer_instance

/-- Errors thrown by the zoom instance function (after the typeof and
isFinite checks, which cannot fail over the rationals). -/
inductive ZoomErr
  | distRange
  | scaleRange
  | incompatibleView
  deriving DecidableEq

/-- The natural image dimension on the longer image axis (ties broken
toward width), used by zoom. -/
def PicViewMap.zoomDimI (m : PicViewMap) : ℚ :=
  if m.image_height ≤ m.image_width then m.image_width else m.image_height

/-- The full view destination extent on the longer image axis. -/
def PicViewMap.zoomDimF (m full_v : PicViewMap) : ℚ :=
  if m.image_height ≤ m.image_width then full_v.dw else full_v.dh

/-- The current view destination extent on the longer image axis. -/
def PicViewMap.zoomDimV (m : PicViewMap) : ℚ :=
  if m.image_height ≤ m.image_width then m.dw else m.dh

/-- The minimum allowed scaling value of zoom: the factor taking the
current view down to the fully zoomed-out view. -/
def PicViewMap.zoomMinScale (m full_v : PicViewMap) : ℚ :=
  m.zoomDimF full_v / m.zoomDimV

/-- The maximum allowed scaling value of zoom: the factor taking the
current view to the natural dimension times the maximum scaling factor. -/
def PicViewMap.zoomMaxScale (m : PicViewMap) (max_s : ℚ) : ℚ :=
  m.zoomDimI * max_s / m.zoomDimV

/-- The user-selected scale new_d / last_d after clamping against the
maximum allowed scaling value. -/
def PicViewMap.zoomClampedScale (m : PicViewMap) (new_d last_d max_s : ℚ) : ℚ :=
  if m.zoomMaxScale max_s ≤ new_d / last_d then m.zoomMaxScale max_s
  else new_d / last_d

/-- The zoom instance function.  Validates arguments (distances
nonnegative, max scale at least one, compatible full view), then treats
new_d / last_d as the scaling change: snaps to the full view at or below
the minimum scale, clamps to the maximum scale, anchors the canvas-center
image point, and re-clamps both axes. -/
def PicViewMap.zoom (m : PicViewMap) (new_d last_d max_s : ℚ)
    (full_v : PicViewMap) : Except ZoomErr (PicViewMap × Bool) :=
  if ¬(0 ≤ new_d) ∨ ¬(0 ≤ last_d) then Except.error ZoomErr.distRange
  else if ¬(1 ≤ max_s) then Except.error ZoomErr.scaleRange
  else if ¬ sameDims full_v m then Except.error ZoomErr.incompatibleView
  else if last_d = 0 ∨ last_d = new_d then Except.ok (m, false)
  else
    let scale := new_d / last_d
    if scale ≤ m.zoomMinScale full_v then
      let changed := if full_v.dx = m.dx ∧ full_v.dy = m.dy ∧
          full_v.dw = m.dw ∧ full_v.dh = m.dh then false else true
      Except.ok (m.copyFrom full_v, changed)
    else
      let scale2 := m.zoomClampedScale new_d last_d max_s
      if scale2 = 1 then Except.ok (m, false)
      else
        let new_w := m.dw * scale2
        let new_h := m.dh * scale2
        let dx1 := m.dx + ((m.canvas_width - 2 * m.dx) * (m.dw - new_w))
                            / (2 * m.dw)
        let dy1 := m.dy + ((m.canvas_height - 2 * m.dy) * (m.dh - new_h))
                            / (2 * m.dh)
        Except.ok ({ m with
          dx := clampAxis m.canvas_width new_w dx1,
          dy := clampAxis m.canvas_height new_h dy1,
          dw := new_w, dh := new_h }, true)

/-- The clamp invariant on one axis: centered when the extent fits the
canvas, otherwise the origin lies between canvas minus extent and zero. -/
def clampOk (cnv dim pos : ℚ) : Prop :=
  (dim ≤ cnv → pos = (cnv - dim) / 2) ∧
  (cnv < dim → cnv - dim ≤ pos ∧ pos ≤ 0)

/-- The clamp invariant of the view on both axes. -/
def clampInv (m : PicViewMap) : Prop :=
  clampOk m.canvas_width m.dw m.dx ∧ clampOk m.canvas_height m.dh m.dy

/-- Pointer identifiers: opaque touch identifiers plus the reserved mouse
sentinel the driver coalesces mouse events onto. -/
inductive PointerId
  | mouse
  | touch (n : ℕ)
  deriving DecidableEq

/-- The semantic events emitted by the input driver through its registered
callbacks. -/
inductive Ev
  | begin (x y : ℚ)
  | drag (x y : ℚ)
  | double (d : ℚ)
  | zoom (d : ℚ)
  | single
  | endEv
  | hold
  | overlay (x y : ℚ)
  | hover (x y : ℚ)
  deriving DecidableEq

/-- State of a PicViewInputDriver: the tracked primary and secondary
pointers, the last primary client position (pcx, pcy), the touch-down
base position (bcx, bcy), the running maximum squared stray distance
bmaxd, the sticky double flag, whether a hold timeout is pending (htime;
the wall-clock delay tthr is not modelled, only the expiry event), whether
a hold callback is registered (fhold), and the configuration: stray
threshold dthr, overlay half-extents (ovx, ovy), the canvas element size
and the canvas bounding rectangle origin used to map client coordinates
into canvas space. -/
structure DriverState where
  active0 : Option PointerId
  active1 : Option PointerId
  pcx : Option ℚ
  pcy : Option ℚ
  bcx : Option ℚ
  bcy : Option ℚ
  bmaxd : Option ℚ
  dbl : Option Bool
  htime : Bool
  fhold : Bool
  dthr : ℚ
  ovx : ℚ
  ovy : ℚ
  cwidth : ℚ
  cheight : ℚ
  rectx : ℚ
  recty : ℚ
  deriving DecidableEq

/-- Close the secondary touch if one is active, emitting single. -/
def closeSecondary (s : DriverState) : DriverState × List Ev :=
  if s.active1 ≠ none then ({ s with active1 := none }, [Ev.single])
  else (s, [])

/-- Close the primary touch if one is active: first close the secondary,
then emit endEv, cancel the pending hold timeout and reset the session
state. -/
def closePrimary (s : DriverState) : DriverState × List Ev :=
  let p := closeSecondary s
  if p.1.active0 ≠ none then
    ({ p.1 with active0 := none, htime := false, pcx := none, pcy := none,
                bcx := none, bcy := none, bmaxd := none, dbl := none },
     p.2 ++ [Ev.endEv])
  else p

/-- The X-axis overlay test on a canvas-space coordinate: a negative
half-extent anchors to the right edge, a positive one to the left edge.
The final else is unreachable at its call sites, which guard ovx away
from zero (the source throws there). -/
def ovHitX (s : DriverState) (ax : ℚ) : Bool :=
  if s.ovx < 0 then decide (s.cwidth + s.ovx ≤ ax)
  else if 0 < s.ovx then decide (ax ≤ s.ovx)
  else false

/-- The Y-axis overlay test, symmetric to ovHitX. -/
def ovHitY (s : DriverState) (ay : ℚ) : Bool :=
  if s.ovy < 0 then decide (s.cheight + s.ovy ≤ ay)
  else if 0 < s.ovy then decide (ay ≤ s.ovy)
  else false

/-- The overlay hit test of handleTouchDown: the intersection when both
axes are configured, a single axis alone when only one is, never when
neither is. -/
def overlayHit (s : DriverState) (ax ay : ℚ) : Bool :=
  if s.ovx ≠ 0 ∧ s.ovy ≠ 0 then ovHitX s ax && ovHitY s ay
  else if s.ovx ≠ 0 then ovHitX s ax
  else if s.ovy ≠ 0 then ovHitY s ay
  else false

/-- Classify a touch-down: primary when nothing is tracked or it matches
the tracked primary, secondary when a primary is tracked and it matches
the free or tracked secondary slot, ignored beyond that. -/
def classifyDown (s : DriverState) (tid : PointerId) : Option Bool :=
  if s.active0 = none then some true
  else if s.active0 = some tid then some true
  else if s.active1 = none then some false
  else if s.active1 = some tid then some false
  else none

/-- The primary branch of handleTouchDown: close any existing session,
then either report an overlay click, or start a new session (arming the
hold timeout) and emit begin. -/
def downPrimary (s : DriverState) (tid : PointerId) (cx cy : ℚ) :
    DriverState × List Ev :=
  let ax := cx - s.rectx
  let ay := cy - s.recty
  let p := closePrimary s
  if overlayHit p.1 ax ay then (p.1, p.2 ++ [Ev.overlay ax ay])
  else
    ({ p.1 with active0 := some tid, pcx := some cx, pcy := some cy,
                bcx := some cx, bcy := some cy, bmaxd := some 0,
                dbl := some false, htime := true },
     p.2 ++ [Ev.begin ax ay])

/-- The secondary branch of handleTouchDown: close any prior secondary,
set the sticky double flag, register the secondary identifier and emit
double with the squared distance to the last primary position. -/
def downSecondary (s : DriverState) (tid : PointerId) (cx cy : ℚ) :
    DriverState × List Ev :=
  let p := closeSecondary s
  let a := cx - p.1.pcx.getD 0
  let b := cy - p.1.pcy.getD 0
  ({ p.1 with dbl := some true, active1 := some tid },
   p.2 ++ [Ev.double (a * a + b * b)])

/-- The handler for a touch (or simulated mouse) press.  A mouse press is
ignored unless the session is empty or mouse-only; otherwise the press is
classified and dispatched to the primary or secondary branch, or ignored
beyond a second concurrent contact. -/
def handleTouchDown (s : DriverState) (tid : PointerId) (cx cy : ℚ) :
    DriverState × List Ev :=
  if tid = PointerId.mouse ∧
      (s.active1 ≠ none ∨ (s.active0 ≠ none ∧ s.active0 ≠ some PointerId.mouse))
  then (s, [])
  else
    match classifyDown s tid with
    | none => (s, [])
    | some true => downPrimary s tid cx cy
    | some false => downSecondary s tid cx cy

/-- The handler for touch (or simulated mouse) motion.  A mouse move with
no active primary reports hover; a move matching the primary updates the
last primary position and the running stray maximum and emits drag; a
move matching the secondary emits zoom with the squared distance to the
last primary position. -/
def handleTouchMove (s : DriverState) (tid : PointerId) (cx cy : ℚ) :
    DriverState × List Ev :=
  let hev : List Ev :=
    if tid = PointerId.mouse ∧ s.active0 = none then
      [Ev.hover (cx - s.rectx) (cy - s.recty)]
    else []
  if s.active0 = some tid then
    let a := cx - s.bcx.getD 0
    let b := cy - s.bcy.getD 0
    let d := a * a + b * b
    let bm := match s.bmaxd with
      | some mx => if d ≤ mx then some mx else some d
      | none => some d
    ({ s with pcx := some cx, pcy := some cy, bmaxd := bm },
     hev ++ [Ev.drag (cx - s.rectx) (cy - s.recty)])
  else if s.active1 = some tid then
    let a := cx - s.pcx.getD 0
    let b := cy - s.pcy.getD 0
    (s, hev ++ [Ev.zoom (a * a + b * b)])
  else (s, hev)

/-- The handler for a touch release or cancel.  The source first replays
the event through handleTouchMove, then closes the primary when the
identifier matches it.  In every other case the source evaluates the
condition tc.identifier === this._ptr.active[1], in which tc and
this._ptr are undefined, and therefore throws a ReferenceError: the
error value carries the state and events already produced by the move
replay, and the closeSecondary call below that condition is
unreachable. -/
def handleTouchUp (s : DriverState) (tid : PointerId) (cx cy : ℚ) :
    Except (DriverState × List Ev) (DriverState × List Ev) :=
  let p := handleTouchMove s tid cx cy
  if p.1.active0 = some tid then
    let q := closePrimary p.1
    Except.ok (q.1, p.2 ++ q.2)
  else
    Except.error p

/-- The stray test of the hold timeout callback: bmaxd exceeds the
threshold (an undefined bmaxd compares false, as in the source). -/
def strayExceeds (s : DriverState) : Bool :=
  match s.bmaxd with
  | some mx => decide (s.dthr < mx)
  | none => false

/-- Expiry of the hold timeout.  The platform timeout is one-shot, so a
pending expiry is consumed; the source leaves the stale handle in _htime,
which no later read distinguishes from a cleared one.  The callback emits
hold only when a hold handler is registered, the session never went into
double mode and the stray maximum never exceeded the threshold. -/
def fireHold (s : DriverState) : DriverState × List Ev :=
  if s.htime then
    let s1 := { s with htime := false }
    if ¬ s.fhold then (s1, [])
    else if s.dbl = some true ∨ strayExceeds s = true then
      (s1, [])
    else (s1, [Ev.hold])
  else (s, [])

/-- Raw inputs driving the recognizer: pointer press, motion and release
events and the expiry of the armed hold timeout. -/
inductive DriverIn
  | down (tid : PointerId) (cx cy : ℚ)
  | move (tid : PointerId) (cx cy : ℚ)
  | up (tid : PointerId) (cx cy : ℚ)
  | fire
  deriving DecidableEq

/-- One step of the recognizer.  For a release whose ReferenceError
propagates out of the event listener, the state keeps the mutations of
the move replay and the later events of that handler are lost. -/
def step (s : DriverState) : DriverIn → DriverState × List Ev
  | DriverIn.down tid cx cy => handleTouchDown s tid cx cy
  | DriverIn.move tid cx cy => handleTouchMove s tid cx cy
  | DriverIn.up tid cx cy =>
    match handleTouchUp s tid cx cy with
    | Except.ok r => r
    | Except.error r => r
  | DriverIn.fire => fireHold s

/-- The state reached after a list of inputs. -/
def stateAt (s : DriverState) : List DriverIn → DriverState
  | [] => s
  | i :: l => stateAt (step s i).1 l

/-- A freshly constructed driver: no tracked pointers, no session
statistics, no pending timeout, with the given configuration. -/
def initState (fh : Bool) (dthr0 ovx0 ovy0 cw0 ch0 rx0 ry0 : ℚ) : DriverState :=
  { active0 := none, active1 := none, pcx := none, pcy := none,
    bcx := none, bcy := none, bmaxd := none, dbl := none,
    htime := false, fhold := fh, dthr := dthr0, ovx := ovx0, ovy := ovy0,
    cwidth := cw0, cheight := ch0, rectx := rx0, recty := ry0 }

/-- Structural invariant of reachable driver states: an armed hold
timeout implies an open session with its statistics defined, and the
double flag is defined only while a primary is tracked. -/
def DInv (s : DriverState) : Prop :=
  (s.htime = true → s.active0 ≠ none ∧ s.dbl ≠ none ∧ s.bmaxd ≠ none) ∧
  (s.dbl ≠ none → s.active0 ≠ none)

instance (s : DriverState) : Decidable (DInv s) := by
  unfold DInv; infer_instance

/-- The conditions under which an expiring hold timeout emits hold: the
timeout pending, a hold handler registered, the session open, never gone
double, and the running stray maximum within the threshold. -/
def holdReady (s : DriverState) : Prop :=
  s.htime = true ∧ s.fhold = true ∧ s.active0 ≠ none ∧ s.dbl = some false ∧
  ∃ mx, s.bmaxd = some mx ∧ mx ≤ s.dthr

/-- A driver state with primary touch 1 (last primary position
(100, 100)) and secondary touch 2 tracked, overlay disabled, on an
800 by 600 canvas whose bounding rectangle starts at the client
origin. -/
def exSt : DriverState :=
  { active0 := some (PointerId.touch 1), active1 := some (PointerId.touch 2),
    pcx := some 100, pcy := some 100, bcx := some 100, bcy := some 100,
    bmaxd := some 0, dbl := some true, htime := true, fhold := true,
    dthr := 100, ovx := 0, ovy := 0, cwidth := 800, cheight := 600,
    rectx := 0, recty := 0 }

/-- Interpreter drag state of PicView: canvas-space start and current
coordinates of the active drag, the most recent secondary distance, the
tri-state action flag, and the two distance fences. -/
structure DragState where
  startx : Option ℚ
  starty : Option ℚ
  curx : Option ℚ
  cury : Option ℚ
  curd : Option ℚ
  action : Option Bool
  action_fence : ℚ
  zoom_fence : ℚ
  deriving DecidableEq

/-- The directional actions the interpreter can trigger from a full-view
drag: a swipe callback (right or left) or a fullscreen enter or exit
request. -/
inductive PAct
  | swipeRight
  | swipeLeft
  | enterFull
  | exitFull
  deriving DecidableEq

/-- The double-event handler of PicView.  The source declares var a, b, d
inside a function whose parameter is also named d, so in the full-view
branch the assignment d = a*a + b*b overwrites the parameter with the
squared start-to-current displacement before the final
this._dragstate.curd = d; d0 below is the parameter and d the local
overwrite. -/
def PicView.inputDouble (view : Option PicViewMap) (ds : DragState) (d0 : ℚ) :
    DragState :=
  match view with
  | none => ds
  | some _ =>
    match ds.startx with
    | none => ds
    | some sx =>
      match ds.action with
      | some true => ds
      | some false =>
        let a := ds.curx.getD 0 - sx
        let b := ds.cury.getD 0 - ds.starty.getD 0
        let d := a * a + b * b
        if ds.zoom_fence < d then ds
        else { ds with action := none, curd := some d }
      | none => { ds with curd := some d0 }

/-- The drag-event handler of PicView.  In full-view mode it updates the
current position, fires at most one directional action once the action
fence is crossed, and classifies the dominant axis (ties to the X axis);
in pan mode it translates the view.  The coalesced repaint scheduling has
no effect on this state and is not modelled. -/
def PicView.inputDrag (view : Option PicViewMap) (ds : DragState) (x y : ℚ) :
    Option PicViewMap × DragState × Option PAct :=
  match view with
  | none => (view, ds, none)
  | some v =>
    match ds.startx with
    | none => (view, ds, none)
    | some sx =>
      match ds.action with
      | some act =>
        let ds1 := { ds with curx := some x, cury := some y }
        if act then (view, ds1, none)
        else
          let a := x - sx
          let b := y - ds.starty.getD 0
          let d := a * a + b * b
          if ds.action_fence ≤ d then
            (view, { ds1 with action := some true },
             some (if |b| ≤ |a| then
                     (if 0 ≤ a then PAct.swipeRight else PAct.swipeLeft)
                   else
                     (if 0 ≤ b then PAct.exitFull else PAct.enterFull)))
          else (view, ds1, none)
      | none =>
        let tr := v.translate x y (ds.curx.getD 0) (ds.cury.getD 0)
        (some tr.1, { ds with curx := some x, cury := some y }, none)

/-- The full view of a 1600 by 400 image on an 800 by 600 canvas. -/
def fullv0 : PicViewMap :=
  { canvas_width := 800, canvas_height := 600,
    image_width := 1600, image_height := 400,
    dx := 0, dy := 200, dw := 800, dh := 200 }

/-- A zoomed-in view over the same base dimensions as fullv0. -/
def zoomed0 : PicViewMap :=
  { canvas_width := 800, canvas_height := 600,
    image_width := 1600, image_height := 400,
    dx := -400, dy := 100, dw := 1600, dh := 400 }

/-- A full view built from different base dimensions (a 400 wide
canvas). -/
def otherv0 : PicViewMap :=
  { canvas_width := 400, canvas_height := 600,
    image_width := 1600, image_height := 400,
    dx := 0, dy := 250, dw := 400, dh := 100 }

/-- Interpreter drag state at the start of a full-view drag that began at
the canvas origin and has not moved: start and current both (0, 0), no
secondary distance, action armed but not fired, with the default
fences. -/
def ds4 : DragState :=
  { startx := some 0, starty := some 0, curx := some 0, cury := some 0,
    curd := none, action := some false,
    action_fence := 200 * 200, zoom_fence := 50 * 50 }

/-- A freshly constructed driver with a hold handler registered, the
default stray threshold 100, overlay disabled, an 800 by 600 canvas and
a bounding rectangle at the client origin. -/
def wit9 : DriverState := initState true 100 0 0 800 600 0 0

/-- The clamping step establishes the clamp invariant on its axis. -/
theorem clampAxis_clampOk (cnv dim r : ℚ) : clampOk cnv dim (clampAxis cnv dim r) := by
  unfold clampAxis clampOk
  rcases le_or_lt dim cnv with h | h
  · rw [if_pos h]
    exact ⟨fun _ => rfl, fun hc => absurd hc (not_lt.mpr h)⟩
  · rw [if_neg (not_le.mpr h)]
    have hr1 : (if 0 < r then (0 : ℚ) else r) ≤ 0 := by
      rcases lt_or_le 0 r with h0 | h0
      · rw [if_pos h0]
      · rw [if_neg (not_lt.mpr h0)]
        exact h0
    refine ⟨fun hle => absurd hle (not_le.mpr h), fun _ => ?_⟩
    rcases lt_or_le (if 0 < r then (0 : ℚ) else r) (cnv - dim) with h2 | h2
    · rw [if_pos h2]
      exact ⟨le_refl _, by linarith⟩
    · rw [if_neg (not_lt.mpr h2)]
      exact ⟨h2, hr1⟩

/-- C2.  After any sequence of translate calls followed by one more
translate call with arbitrary coordinates, the destination rectangle
satisfies the clamp invariant relative to the current extents: a fitting
extent is exactly centered, a larger one keeps its origin between
canvas minus extent and zero, on both axes. -/
theorem translate_clamp_invariant (m : PicViewMap) (l : List (ℚ × ℚ × ℚ × ℚ))
    (nx ny lx ly : ℚ) :
    clampInv ((translateSeq m l).translate nx ny lx ly).1 :=
  ⟨clampAxis_clampOk _ _ _, clampAxis_clampOk _ _ _⟩

/-- C10.  A translate call changes only the destination origin: the
destination extents and the four reference dimensions keep exactly their
prior values, so the extent aspect ratio and the result of the check
function are preserved exactly. -/
theorem translate_frame_effect (m : PicViewMap) (nx ny lx ly : ℚ) :
    ((m.translate nx ny lx ly).1.dw = m.dw ∧
     (m.translate nx ny lx ly).1.dh = m.dh ∧
     (m.translate nx ny lx ly).1.canvas_width = m.canvas_width ∧
     (m.translate nx ny lx ly).1.canvas_height = m.canvas_height ∧
     (m.translate nx ny lx ly).1.image_width = m.image_width ∧
     (m.translate nx ny lx ly).1.image_height = m.image_height) ∧
    (∀ a b c d : ℚ,
      (m.translate nx ny lx ly).1.check a b c d = m.check a b c d) ∧
    (m.translate nx ny lx ly).1.dw / (m.translate nx ny lx ly).1.dh
      = m.dw / m.dh :=
  ⟨⟨rfl, rfl, rfl, rfl, rfl, rfl⟩, fun _ _ _ _ => rfl, rfl⟩

/-- C3.  For positive inputs the constructor produces the full view:
scale is the minimum of one and the reciprocal of the larger
image-to-canvas ratio, the extents are the image dimensions times that
scale, and the rectangle is centered. -/
theorem create_full_view (cw ch iw ih : ℚ)
    (h1 : 0 < cw) (h2 : 0 < ch) (h3 : 0 < iw) (h4 : 0 < ih) :
    ∃ m, PicViewMap.create cw ch iw ih = some m ∧
      m.canvas_width = cw ∧ m.canvas_height = ch ∧
      m.image_width = iw ∧ m.image_height = ih ∧
      m.dw = iw * min 1 (max (iw / cw) (ih / ch))⁻¹ ∧
      m.dh = ih * min 1 (max (iw / cw) (ih / ch))⁻¹ ∧
      m.dx = (cw - m.dw) / 2 ∧ m.dy = (ch - m.dh) / 2 := by
  have hsc : (if iw / cw < ih / ch then ih / ch else iw / cw)
      = max (iw / cw) (ih / ch) := by
    rcases le_or_lt (ih / ch) (iw / cw) with h | h
    · rw [if_neg (not_lt.mpr h), max_eq_left h]
    · rw [if_pos h, max_eq_right h.le]
  have hpos : 0 < max (iw / cw) (ih / ch) :=
    lt_max_of_lt_left (div_pos h3 h1)
  have hscale :
      (if max (iw / cw) (ih / ch) ≤ 1 then (1 : ℚ)
        else 1 / max (iw / cw) (ih / ch))
      = min 1 (max (iw / cw) (ih / ch))⁻¹ := by
    rcases le_or_lt (max (iw / cw) (ih / ch)) 1 with h | h
    · rw [if_pos h, min_eq_left ((one_le_inv₀ hpos).2 h)]
    · rw [if_neg (not_le.mpr h), one_div,
        min_eq_right (inv_le_one_of_one_le₀ h.le)]
  unfold PicViewMap.create
  rw [if_neg (by push_neg; exact ⟨h1, h2, h3, h4⟩)]
  refine ⟨_, rfl, rfl, rfl, rfl, rfl, ?_, ?_, rfl, rfl⟩
  · show iw * (if (if iw / cw < ih / ch then ih / ch else iw / cw) ≤ 1
        then (1 : ℚ) else 1 / (if iw / cw < ih / ch then ih / ch else iw / cw))
      = iw * min 1 (max (iw / cw) (ih / ch))⁻¹
    rw [hsc, hscale]
  · show ih * (if (if iw / cw < ih / ch then ih / ch else iw / cw) ≤ 1
        then (1 : ℚ) else 1 / (if iw / cw < ih / ch then ih / ch else iw / cw))
      = ih * min 1 (max (iw / cw) (ih / ch))⁻¹
    rw [hsc, hscale]

/-- Witness for C3 at the specified scenario: canvas 800 by 600 and
image 1600 by 400 satisfy the hypotheses, the theorem gives the full-view
equations there, and evaluating the constructor yields exactly dw 800,
dh 200, dx 0, dy 200 (the view fullv0). -/
theorem create_full_view_witness :
    (∃ m, PicViewMap.create 800 600 1600 400 = some m ∧
      m.canvas_width = 800 ∧ m.canvas_height = 600 ∧
      m.image_width = 1600 ∧ m.image_height = 400 ∧
      m.dw = 1600 * min 1 (max (1600 / 800) (400 / 600))⁻¹ ∧
      m.dh = 400 * min 1 (max (1600 / 800) (400 / 600))⁻¹ ∧
      m.dx = (800 - m.dw) / 2 ∧ m.dy = (600 - m.dh) / 2) ∧
    PicViewMap.create 800 600 1600 400 = some fullv0 :=
  ⟨create_full_view 800 600 1600 400 (by norm_num) (by norm_num)
      (by norm_num) (by norm_num),
   by unfold PicViewMap.create fullv0; norm_num⟩

/-- equalTo is reflexive. -/
theorem PicViewMap.equalTo_refl (v : PicViewMap) : v.equalTo v = true := by
  unfold PicViewMap.equalTo
  rw [if_pos ⟨rfl, rfl, rfl, rfl, rfl, rfl, rfl, rfl⟩]

/-- C5.  When validation passes, the distances are distinct and nonzero,
and the selected scale is at or below the minimum scale on the longer
image axis, zoom snaps the view to exactly the supplied full view
(bit-for-bit, per equalTo) and reports a change exactly when the
destination rectangle differed from the full view beforehand. -/
theorem zoom_snap_to_full (m full_v : PicViewMap) (new_d last_d max_s : ℚ)
    (h1 : 0 ≤ new_d) (h2 : 0 ≤ last_d) (h3 : 1 ≤ max_s)
    (hc : sameDims full_v m) (hl : ¬ last_d = 0) (hn : ¬ last_d = new_d)
    (hmin : new_d / last_d ≤ m.zoomMinScale full_v) :
    m.zoom new_d last_d max_s full_v =
      Except.ok (full_v,
        if full_v.dx = m.dx ∧ full_v.dy = m.dy ∧
            full_v.dw = m.dw ∧ full_v.dh = m.dh then false else true) ∧
    ∀ p, m.zoom new_d last_d max_s full_v = Except.ok p →
      p.1.equalTo full_v = true := by
  have hz : m.zoom new_d last_d max_s full_v =
      Except.ok (full_v,
        if full_v.dx = m.dx ∧ full_v.dy = m.dy ∧
            full_v.dw = m.dw ∧ full_v.dh = m.dh then false else true) := by
    simp only [PicViewMap.zoom]
    rw [if_neg (by push_neg; exact ⟨h1, h2⟩), if_neg (not_not_intro h3),
      if_neg (not_not_intro hc), if_neg (by push_neg; exact ⟨hl, hn⟩),
      if_pos hmin]
    rfl
  refine ⟨hz, fun p hp => ?_⟩
  rw [hz] at hp
  injection hp with h
  rw [← h]
  exact PicViewMap.equalTo_refl full_v

/-- Witness for C5: zooming the view zoomed0 with distance ratio 1/4,
below the minimum scale 1/2, snaps it to fullv0 and reports a change. -/
theorem zoom_snap_to_full_witness :
    zoomed0.zoom 1 4 4 fullv0 = Except.ok (fullv0, true) := by
  have h := (zoom_snap_to_full zoomed0 fullv0 1 4 4 (by norm_num) (by norm_num)
    (by norm_num) ⟨rfl, rfl, rfl, rfl⟩ (by norm_num) (by norm_num)
    (by norm_num [PicViewMap.zoomMinScale, PicViewMap.zoomDimF,
      PicViewMap.zoomDimV, zoomed0, fullv0])).1
  rw [h]
  norm_num [fullv0, zoomed0]

/-- C6.  When validation passes: a zero last distance or equal distances
make zoom a no-op returning false; any successful call returning false
leaves every field unchanged; and when the clamped scale lands exactly on
one, zoom is a no-op returning false. -/
theorem zoom_noop_cases (m full_v : PicViewMap) (new_d last_d max_s : ℚ)
    (h1 : 0 ≤ new_d) (h2 : 0 ≤ last_d) (h3 : 1 ≤ max_s)
    (hc : sameDims full_v m) :
    (last_d = 0 ∨ last_d = new_d →
      m.zoom new_d last_d max_s full_v = Except.ok (m, false)) ∧
    (∀ p, m.zoom new_d last_d max_s full_v = Except.ok p → p.2 = false →
      p.1 = m) ∧
    (¬ last_d = 0 → ¬ last_d = new_d →
      ¬ new_d / last_d ≤ m.zoomMinScale full_v →
      m.zoomClampedScale new_d last_d max_s = 1 →
      m.zoom new_d last_d max_s full_v = Except.ok (m, false)) := by
  refine ⟨fun hld => ?_, fun p hp hp2 => ?_, fun hl hn hmin hs1 => ?_⟩
  · simp only [PicViewMap.zoom]
    rw [if_neg (by push_neg; exact ⟨h1, h2⟩), if_neg (not_not_intro h3),
      if_neg (not_not_intro hc), if_pos hld]
  · simp only [PicViewMap.zoom] at hp
    rw [if_neg (by push_neg; exact ⟨h1, h2⟩), if_neg (not_not_intro h3),
      if_neg (not_not_intro hc)] at hp
    by_cases hld : last_d = 0 ∨ last_d = new_d
    · rw [if_pos hld] at hp
      injection hp with h
      rw [← h]
    · rw [if_neg hld] at hp
      by_cases hmin : new_d / last_d ≤ m.zoomMinScale full_v
      · rw [if_pos hmin] at hp
        injection hp with h
        rw [← h] at hp2 ⊢
        by_cases hcond : full_v.dx = m.dx ∧ full_v.dy = m.dy ∧
            full_v.dw = m.dw ∧ full_v.dh = m.dh
        · show m.copyFrom full_v = m
          have : full_v = m := PicViewMap.ext hc.1 hc.2.1 hc.2.2.1 hc.2.2.2
            hcond.1 hcond.2.1 hcond.2.2.1 hcond.2.2.2
          rw [show m.copyFrom full_v = full_v from rfl, this]
        · rw [show ((m.copyFrom full_v,
              if full_v.dx = m.dx ∧ full_v.dy = m.dy ∧
                  full_v.dw = m.dw ∧ full_v.dh = m.dh then false else true) :
              PicViewMap × Bool).2 =
              (if full_v.dx = m.dx ∧ full_v.dy = m.dy ∧
                  full_v.dw = m.dw ∧ full_v.dh = m.dh then false else true)
            from rfl, if_neg hcond] at hp2
          exact absurd hp2 (by simp)
      · rw [if_neg hmin] at hp
        by_cases hs1 : m.zoomClampedScale new_d last_d max_s = 1
        · rw [if_pos hs1] at hp
          injection hp with h
          rw [← h]
        · rw [if_neg hs1] at hp
          injection hp with h
          rw [← h] at hp2
          exact absurd hp2 (by simp)
  · simp only [PicViewMap.zoom]
    rw [if_neg (by push_neg; exact ⟨h1, h2⟩), if_neg (not_not_intro h3),
      if_neg (not_not_intro hc), if_neg (by push_neg; exact ⟨hl, hn⟩),
      if_neg hmin, if_pos hs1]

/-- Witness for C6: a zoom on the full view with equal nonzero distances
is an identity operation returning false. -/
theorem zoom_noop_cases_witness :
    fullv0.zoom 5 5 4 fullv0 = Except.ok (fullv0, false) :=
  (zoom_noop_cases fullv0 fullv0 5 5 4 (by norm_num) (by norm_num)
    (by norm_num) ⟨rfl, rfl, rfl, rfl⟩).1 (Or.inr rfl)

/-- C7.  When the distance and max-scale validation passes but the
supplied full view was built from different base dimensions, zoom fails
with the incompatible-view error, before any state is produced: no
success value exists for the call. -/
theorem zoom_incompatible_fails (m full_v : PicViewMap) (new_d last_d max_s : ℚ)
    (h1 : 0 ≤ new_d) (h2 : 0 ≤ last_d) (h3 : 1 ≤ max_s)
    (hinc : ¬ sameDims full_v m) :
    m.zoom new_d last_d max_s full_v = Except.error ZoomErr.incompatibleView ∧
    ∀ p, ¬ m.zoom new_d last_d max_s full_v = Except.ok p := by
  have hz : m.zoom new_d last_d max_s full_v
      = Except.error ZoomErr.incompatibleView := by
    simp only [PicViewMap.zoom]
    rw [if_neg (by push_neg; exact ⟨h1, h2⟩), if_neg (not_not_intro h3),
      if_pos hinc]
  exact ⟨hz, fun p hp => by rw [hz] at hp; exact Except.noConfusion hp⟩

/-- Witness for C7: zooming fullv0 against a full view built for a 400
wide canvas fails with the incompatible-view error. -/
theorem zoom_incompatible_fails_witness :
    fullv0.zoom 1 1 1 otherv0 = Except.error ZoomErr.incompatibleView :=
  (zoom_incompatible_fails fullv0 otherv0 1 1 1 (by norm_num) (by norm_num)
    (by norm_num) (by norm_num [sameDims, otherv0, fullv0])).1

/-- C1 (divergence).  Releasing the tracked secondary touch (id 2, which
does not match the primary id 1) first replays the event through move
handling, emitting zoom with the squared distance 2500 from the last
primary position (100, 100) to (130, 140) — and then throws the
ReferenceError of the undefined tc and this._ptr in the secondary
branch: no single event is emitted, and the carried state is exSt
itself, so the secondary identifier is still registered and nothing was
cleared. -/
theorem handleTouchUp_secondary_reference_error :
    handleTouchUp exSt (PointerId.touch 2) 130 140 =
      Except.error (exSt, [Ev.zoom 2500]) ∧
    exSt.active1 = some (PointerId.touch 2) := by
  constructor
  · norm_num [handleTouchUp, handleTouchMove, exSt]
    exact fun h => PointerId.noConfusion h
  · rfl

/-- C4 (divergence).  A double event with squared distance 2500 arriving
in full-view action mode (start and current position both at the origin)
records curd = 0, the squared start-to-current displacement that the
local variable d overwrote the parameter with — not the 2500 the event
carried; the direct-entry path outside full-view mode records the
parameter 2500 as the claim states. -/
theorem inputDouble_full_mode_clobbers_distance :
    (PicView.inputDouble (some fullv0) ds4 2500).curd = some 0 ∧
    (PicView.inputDouble (some fullv0)
      { ds4 with action := none } 2500).curd = some 2500 ∧
    (2500 : ℚ) ≠ 0 := by
  refine ⟨?_, ?_, by norm_num⟩
  · norm_num [PicView.inputDouble, ds4]
  · norm_num [PicView.inputDouble, ds4]

/-- C8.  During a full-view drag with the action not yet fired, a drag
event whose squared displacement from the start reaches the action fence
of 200 squared fires exactly one action, selected by the dominant axis
(ties to X): swipe right for a nonnegative dominant X, swipe left for a
negative one, a fullscreen exit request for a nonnegative dominant Y and
an enter request for a negative one, and sets the action flag; below the
fence no action fires; and once the flag is set every later drag event
fires no further action. -/
theorem inputDrag_action_classification
    (v : PicViewMap) (ds : DragState) (sx sy x y : ℚ)
    (hsx : ds.startx = some sx) (hsy : ds.starty = some sy)
    (ha : ds.action = some false) (hf : ds.action_fence = 200 * 200) :
    (200 * 200 ≤ (x - sx) * (x - sx) + (y - sy) * (y - sy) →
      PicView.inputDrag (some v) ds x y =
        (some v,
         { ds with curx := some x, cury := some y, action := some true },
         some (if |y - sy| ≤ |x - sx| then
                 (if 0 ≤ x - sx then PAct.swipeRight else PAct.swipeLeft)
               else
                 (if 0 ≤ y - sy then PAct.exitFull else PAct.enterFull)))) ∧
    ((x - sx) * (x - sx) + (y - sy) * (y - sy) < 200 * 200 →
      PicView.inputDrag (some v) ds x y =
        (some v, { ds with curx := some x, cury := some y }, none)) ∧
    (∀ ds2 x2 y2, ds2.action = some true → (∃ s2, ds2.startx = some s2) →
      PicView.inputDrag (some v) ds2 x2 y2 =
        (some v, { ds2 with curx := some x2, cury := some y2 }, none)) := by
  obtain ⟨ds_sx, ds_sy, ds_cx, ds_cy, ds_cd, ds_act, ds_af, ds_zf⟩ := ds
  simp only at hsx hsy ha hf
  subst hsx hsy ha hf
  refine ⟨fun h => ?_, fun h => ?_, fun ds2 x2 y2 h2 hs2 => ?_⟩
  · simp only [PicView.inputDrag, Option.getD_some, Bool.false_eq_true,
      if_false]
    rw [if_pos h]
  · simp only [PicView.inputDrag, Option.getD_some, Bool.false_eq_true,
      if_false]
    rw [if_neg (not_le.mpr h)]
  · obtain ⟨s2v, hs2v⟩ := hs2
    obtain ⟨t_sx, t_sy, t_cx, t_cy, t_cd, t_act, t_af, t_zf⟩ := ds2
    simp only at h2 hs2v
    subst h2 hs2v
    simp only [PicView.inputDrag, if_true]

/-- Witness for C8: from a full-view drag started at the origin, a drag
to (300, 0) crosses the action fence with a dominant nonnegative X and
fires exactly the swipe-right action. -/
theorem inputDrag_action_classification_witness :
    PicView.inputDrag (some fullv0) ds4 300 0 =
      (some fullv0,
       { ds4 with curx := some 300, cury := some 0, action := some true },
       some PAct.swipeRight) := by
  have h := (inputDrag_action_classification fullv0 ds4 0 0 300 0
    rfl rfl rfl rfl).1 (by norm_num)
  rw [h]
  norm_num

/-- Running a concatenated input list is running the pieces in order. -/
theorem stateAt_append (l1 l2 : List DriverIn) (s : DriverState) :
    stateAt s (l1 ++ l2) = stateAt (stateAt s l1) l2 := by
  induction l1 generalizing s with
  | nil => rfl
  | cons i l ih => exact ih (step s i).1

/-- closeSecondary changes nothing but the secondary slot. -/
theorem closeSecondary_keeps (s : DriverState) :
    (closeSecondary s).1.active0 = s.active0 ∧
    (closeSecondary s).1.dbl = s.dbl ∧
    (closeSecondary s).1.htime = s.htime ∧
    (closeSecondary s).1.bmaxd = s.bmaxd := by
  unfold closeSecondary
  split
  · exact ⟨rfl, rfl, rfl, rfl⟩
  · exact ⟨rfl, rfl, rfl, rfl⟩

/-- closeSecondary emits at most a single event. -/
theorem closeSecondary_ev (s : DriverState) (e : Ev)
    (h : e ∈ (closeSecondary s).2) : e = Ev.single := by
  unfold closeSecondary at h
  split at h
  · simpa using h
  · simp at h

/-- closePrimary emits only single and endEv events. -/
theorem closePrimary_ev (s : DriverState) (e : Ev)
    (h : e ∈ (closePrimary s).2) : e = Ev.single ∨ e = Ev.endEv := by
  simp only [closePrimary] at h
  split at h
  · rcases List.mem_append.mp h with h1 | h1
    · exact Or.inl (closeSecondary_ev s e h1)
    · simp at h1
      exact Or.inr h1
  · exact Or.inl (closeSecondary_ev s e h)

/-- Closing an open primary emits endEv. -/
theorem closePrimary_endEv (s : DriverState) (h : s.active0 ≠ none) :
    Ev.endEv ∈ (closePrimary s).2 := by
  unfold closePrimary
  rw [if_pos (by rw [(closeSecondary_keeps s).1]; exact h)]
  simp

/-- closePrimary leaves the hold timeout armed only when there was no
open primary to close (and then everything but the secondary is kept). -/
theorem closePrimary_htime (s : DriverState)
    (h : (closePrimary s).1.htime = true) :
    s.htime = true ∧ s.active0 = none := by
  simp only [closePrimary] at h
  split at h
  · simp at h
  · next hc =>
    rw [(closeSecondary_keeps s).2.2.1] at h
    rw [(closeSecondary_keeps s).1] at hc
    simp at hc
    exact ⟨h, hc⟩

/-- closePrimary leaves the double flag set only when there was no open
primary to close. -/
theorem closePrimary_dbl (s : DriverState)
    (h : (closePrimary s).1.dbl = some true) :
    s.dbl = some true ∧ s.active0 = none := by
  simp only [closePrimary] at h
  split at h
  · simp at h
  · next hc =>
    rw [(closeSecondary_keeps s).2.1] at h
    rw [(closeSecondary_keeps s).1] at hc
    simp at hc
    exact ⟨h, hc⟩

/-- closePrimary with no open primary keeps the stray maximum. -/
theorem closePrimary_bmaxd (s : DriverState) (h : s.active0 = none) :
    (closePrimary s).1.bmaxd = s.bmaxd := by
  unfold closePrimary
  rw [if_neg (by rw [(closeSecondary_keeps s).1, h]; simp)]
  exact (closeSecondary_keeps s).2.2.2

/-- closePrimary preserves the structural invariant. -/
theorem closePrimary_DInv (s : DriverState) (h : DInv s) :
    DInv (closePrimary s).1 := by
  simp only [closePrimary]
  split
  · exact ⟨fun ht => by simp at ht, fun hd => by simp at hd⟩
  · next hc =>
    rw [(closeSecondary_keeps s).1] at hc
    simp at hc
    refine ⟨fun ht => ?_, fun hd => ?_⟩
    · rw [(closeSecondary_keeps s).2.2.1] at ht
      exact absurd (h.1 ht).1 (by rw [hc]; simp)
    · rw [(closeSecondary_keeps s).2.1] at hd
      exact absurd (h.2 hd) (by rw [hc]; simp)

/-- handleTouchMove changes nothing but the last primary position and
the stray maximum. -/
theorem move_keeps (s : DriverState) (tid : PointerId) (cx cy : ℚ) :
    (handleTouchMove s tid cx cy).1.active0 = s.active0 ∧
    (handleTouchMove s tid cx cy).1.active1 = s.active1 ∧
    (handleTouchMove s tid cx cy).1.dbl = s.dbl ∧
    (handleTouchMove s tid cx cy).1.htime = s.htime := by
  simp only [handleTouchMove]
  split
  · exact ⟨rfl, rfl, rfl, rfl⟩
  · split
    · exact ⟨rfl, rfl, rfl, rfl⟩
    · exact ⟨rfl, rfl, rfl, rfl⟩

/-- handleTouchMove emits only hover, drag and zoom events. -/
theorem move_ev (s : DriverState) (tid : PointerId) (cx cy : ℚ) (e : Ev)
    (h : e ∈ (handleTouchMove s tid cx cy).2) :
    (∃ a b, e = Ev.hover a b) ∨ (∃ a b, e = Ev.drag a b) ∨
    ∃ d0, e = Ev.zoom d0 := by
  have hov : ∀ e0 : Ev,
      e0 ∈ (if tid = PointerId.mouse ∧ s.active0 = none then
        [Ev.hover (cx - s.rectx) (cy - s.recty)] else []) →
      ∃ a b, e0 = Ev.hover a b := by
    intro e0 h0
    split at h0
    · simp at h0
      exact ⟨_, _, h0⟩
    · simp at h0
  simp only [handleTouchMove] at h
  split at h
  · rcases List.mem_append.mp h with h1 | h1
    · exact Or.inl (hov e h1)
    · simp at h1
      exact Or.inr (Or.inl ⟨_, _, h1⟩)
  · split at h
    · rcases List.mem_append.mp h with h1 | h1
      · exact Or.inl (hov e h1)
      · simp at h1
        exact Or.inr (Or.inr ⟨_, h1⟩)
    · exact Or.inl (hov e h)

/-- handleTouchMove never lowers a defined stray maximum. -/
theorem move_bmaxd (s : DriverState) (tid : PointerId) (cx cy : ℚ) (m0 : ℚ)
    (h : s.bmaxd = some m0) :
    ∃ m1, (handleTouchMove s tid cx cy).1.bmaxd = some m1 ∧ m0 ≤ m1 := by
  simp only [handleTouchMove]
  split
  · rw [h]
    dsimp only
    split
    · exact ⟨m0, rfl, le_refl m0⟩
    · next h2 => exact ⟨_, rfl, le_of_not_le h2⟩
  · split
    · exact ⟨m0, h, le_refl m0⟩
    · exact ⟨m0, h, le_refl m0⟩

/-- handleTouchMove keeps an undefined stray maximum defined or makes it
defined; in particular it preserves the structural invariant. -/
theorem move_DInv (s : DriverState) (tid : PointerId) (cx cy : ℚ)
    (h : DInv s) : DInv (handleTouchMove s tid cx cy).1 := by
  obtain ⟨k0, k1, k2, k3⟩ := move_keeps s tid cx cy
  refine ⟨fun ht => ?_, fun hd => ?_⟩
  · rw [k3] at ht
    obtain ⟨a0, a1, a2⟩ := h.1 ht
    refine ⟨by rw [k0]; exact a0, by rw [k2]; exact a1, ?_⟩
    obtain ⟨mv, hmv⟩ := Option.ne_none_iff_exists'.mp a2
    obtain ⟨m1, hm1, _⟩ := move_bmaxd s tid cx cy mv hmv
    rw [hm1]
    simp
  · rw [k2] at hd
    rw [k0]
    exact h.2 hd

/-- A release step is the move replay followed, on a primary match, by
closePrimary; on any other identifier the ReferenceError leaves just the
move replay. -/
theorem step_up_eq (s : DriverState) (tid : PointerId) (cx cy : ℚ) :
    step s (DriverIn.up tid cx cy) =
      (if (handleTouchMove s tid cx cy).1.active0 = some tid then
        ((closePrimary (handleTouchMove s tid cx cy).1).1,
         (handleTouchMove s tid cx cy).2 ++
           (closePrimary (handleTouchMove s tid cx cy).1).2)
      else handleTouchMove s tid cx cy) := by
  simp only [step, handleTouchUp]
  by_cases hc : (handleTouchMove s tid cx cy).1.active0 = some tid
  · rw [if_pos hc, if_pos hc]
  · rw [if_neg hc, if_neg hc]

/-- The hold-timeout expiry emits hold only when the timeout was armed,
a handler is registered, the session never went double and the stray
maximum is within the threshold; it always disarms the timeout it
consumed. -/
theorem fire_hold_cond (s : DriverState) (h : Ev.hold ∈ (fireHold s).2) :
    s.htime = true ∧ s.fhold = true ∧ ¬ s.dbl = some true ∧
    strayExceeds s = false ∧ (fireHold s).1.htime = false := by
  unfold fireHold at h ⊢
  by_cases h1 : s.htime = true
  · rw [if_pos h1] at h ⊢
    by_cases h2 : s.fhold = true
    · rw [if_neg (by rw [h2]; simp)] at h ⊢
      by_cases h3 : s.dbl = some true ∨ strayExceeds s = true
      · rw [if_pos h3] at h
        simp at h
      · rw [if_neg h3] at h ⊢
        push_neg at h3
        exact ⟨h1, h2, h3.1, by simpa using h3.2, rfl⟩
    · rw [if_pos (by simpa using h2)] at h
      simp at h
  · rw [if_neg h1] at h
    simp at h

/-- The hold-timeout expiry changes nothing but the armed flag. -/
theorem fire_keeps (s : DriverState) :
    (fireHold s).1.active0 = s.active0 ∧ (fireHold s).1.dbl = s.dbl ∧
    (fireHold s).1.bmaxd = s.bmaxd ∧
    ((fireHold s).1.htime = true → s.htime = true) := by
  unfold fireHold
  split
  · split
    · exact ⟨rfl, rfl, rfl, fun h => by simpa using h⟩
    · split
      · exact ⟨rfl, rfl, rfl, fun h => by simpa using h⟩
      · exact ⟨rfl, rfl, rfl, fun h => by simpa using h⟩
  · exact ⟨rfl, rfl, rfl, fun h => h⟩

/-- The hold-timeout expiry emits at most a hold event. -/
theorem fire_ev (s : DriverState) (e : Ev) (h : e ∈ (fireHold s).2) :
    e = Ev.hold := by
  unfold fireHold at h
  split at h
  · split at h
    · simp at h
    · split at h
      · simp at h
      · simpa using h
  · simp at h

/-- A secondary classification needs a tracked primary. -/
theorem classifyDown_secondary (s : DriverState) (tid : PointerId)
    (h : classifyDown s tid = some false) : s.active0 ≠ none := by
  intro ha
  unfold classifyDown at h
  rw [if_pos ha] at h
  simp at h

/-- A touch press is ignored, dispatched to the primary branch, or
dispatched to the secondary branch. -/
theorem down_split (s : DriverState) (tid : PointerId) (cx cy : ℚ) :
    handleTouchDown s tid cx cy = (s, []) ∨
    (classifyDown s tid = some true ∧
      handleTouchDown s tid cx cy = downPrimary s tid cx cy) ∨
    (classifyDown s tid = some false ∧
      handleTouchDown s tid cx cy = downSecondary s tid cx cy) := by
  simp only [handleTouchDown]
  split
  · exact Or.inl rfl
  · cases hcl : classifyDown s tid with
    | none => exact Or.inl rfl
    | some b =>
      cases b with
      | true => exact Or.inr (Or.inl ⟨rfl, rfl⟩)
      | false => exact Or.inr (Or.inr ⟨rfl, rfl⟩)

/-- The primary branch either reports the overlay click on the state
left by closePrimary, or starts the new session and emits begin. -/
theorem downPrimary_split (s : DriverState) (tid : PointerId) (cx cy : ℚ) :
    downPrimary s tid cx cy = ((closePrimary s).1,
      (closePrimary s).2 ++ [Ev.overlay (cx - s.rectx) (cy - s.recty)]) ∨
    downPrimary s tid cx cy = ({ (closePrimary s).1 with
        active0 := some tid, pcx := some cx, pcy := some cy,
        bcx := some cx, bcy := some cy, bmaxd := some 0,
        dbl := some false, htime := true },
      (closePrimary s).2 ++ [Ev.begin (cx - s.rectx) (cy - s.recty)]) := by
  simp only [downPrimary]
  split
  · exact Or.inl rfl
  · exact Or.inr rfl

/-- The secondary branch keeps the primary session (identifier, hold
timeout, stray maximum) and sets the sticky double flag. -/
theorem downSecondary_fst (s : DriverState) (tid : PointerId) (cx cy : ℚ) :
    (downSecondary s tid cx cy).1.dbl = some true ∧
    (downSecondary s tid cx cy).1.active0 = s.active0 ∧
    (downSecondary s tid cx cy).1.htime = s.htime ∧
    (downSecondary s tid cx cy).1.bmaxd = s.bmaxd := by
  exact ⟨rfl, (closeSecondary_keeps s).1, (closeSecondary_keeps s).2.2.1,
    (closeSecondary_keeps s).2.2.2⟩

/-- The secondary branch emits only single and double events. -/
theorem downSecondary_ev (s : DriverState) (tid : PointerId) (cx cy : ℚ)
    (e : Ev) (h : e ∈ (downSecondary s tid cx cy).2) :
    e = Ev.single ∨ ∃ d0, e = Ev.double d0 := by
  simp only [downSecondary] at h
  rcases List.mem_append.mp h with h1 | h1
  · exact Or.inl (closeSecondary_ev s e h1)
  · simp at h1
    exact Or.inr ⟨_, h1⟩

/-- A step emits hold only on timer expiry, only when the session is
open, never went double and stayed within the stray threshold; the
expiry disarms the consumed timeout. -/
theorem hold_step (s : DriverState) (i : DriverIn) (hI : DInv s)
    (h : Ev.hold ∈ (step s i).2) :
    i = DriverIn.fire ∧ holdReady s ∧ (step s i).1.htime = false := by
  cases i with
  | down tid cx cy =>
    exfalso
    simp only [step] at h
    rcases down_split s tid cx cy with he | ⟨_, he⟩ | ⟨_, he⟩ <;> rw [he] at h
    · simp at h
    · rcases downPrimary_split s tid cx cy with hp | hp <;> rw [hp] at h <;>
        rcases List.mem_append.mp h with h1 | h1
      · rcases closePrimary_ev s _ h1 with h2 | h2 <;> simp at h2
      · simp at h1
      · rcases closePrimary_ev s _ h1 with h2 | h2 <;> simp at h2
      · simp at h1
    · rcases downSecondary_ev s tid cx cy _ h with h1 | ⟨d0, h1⟩ <;> simp at h1
  | move tid cx cy =>
    exfalso
    simp only [step] at h
    rcases move_ev s tid cx cy _ h with ⟨a, b, h1⟩ | ⟨a, b, h1⟩ | ⟨d0, h1⟩ <;>
      simp at h1
  | up tid cx cy =>
    exfalso
    rw [step_up_eq] at h
    by_cases hc : (handleTouchMove s tid cx cy).1.active0 = some tid
    · rw [if_pos hc] at h
      rcases List.mem_append.mp h with h1 | h1
      · rcases move_ev s tid cx cy _ h1 with ⟨a, b, h2⟩ | ⟨a, b, h2⟩ | ⟨d0, h2⟩ <;>
          simp at h2
      · rcases closePrimary_ev _ _ h1 with h2 | h2 <;> simp at h2
    · rw [if_neg hc] at h
      rcases move_ev s tid cx cy _ h with ⟨a, b, h1⟩ | ⟨a, b, h1⟩ | ⟨d0, h1⟩ <;>
        simp at h1
  | fire =>
    simp only [step] at h ⊢
    obtain ⟨h1, h2, h3, h4, h5⟩ := fire_hold_cond s h
    obtain ⟨ha, hd, hm⟩ := hI.1 h1
    refine ⟨by trivial, ⟨h1, h2, ha, ?_, ?_⟩, h5⟩
    · rcases hdb : s.dbl with _ | b
      · exact absurd hdb hd
      · cases b
        · rfl
        · exact absurd hdb h3
    · obtain ⟨mx, hmx⟩ := Option.ne_none_iff_exists'.mp hm
      refine ⟨mx, hmx, ?_⟩
      unfold strayExceeds at h4
      rw [hmx] at h4
      simpa using h4

/-- A step that emits double leaves the double flag set. -/
theorem double_step (s : DriverState) (i : DriverIn) (d0 : ℚ)
    (h : Ev.double d0 ∈ (step s i).2) : (step s i).1.dbl = some true := by
  cases i with
  | down tid cx cy =>
    simp only [step] at h ⊢
    rcases down_split s tid cx cy with he | ⟨_, he⟩ | ⟨_, he⟩ <;> rw [he] at h ⊢
    · simp at h
    · exfalso
      rcases downPrimary_split s tid cx cy with hp | hp <;> rw [hp] at h <;>
        rcases List.mem_append.mp h with h1 | h1
      · rcases closePrimary_ev s _ h1 with h2 | h2 <;> simp at h2
      · simp at h1
      · rcases closePrimary_ev s _ h1 with h2 | h2 <;> simp at h2
      · simp at h1
    · exact (downSecondary_fst s tid cx cy).1
  | move tid cx cy =>
    exfalso
    simp only [step] at h
    rcases move_ev s tid cx cy _ h with ⟨a, b, h1⟩ | ⟨a, b, h1⟩ | ⟨d1, h1⟩ <;>
      simp at h1
  | up tid cx cy =>
    exfalso
    rw [step_up_eq] at h
    by_cases hc : (handleTouchMove s tid cx cy).1.active0 = some tid
    · rw [if_pos hc] at h
      rcases List.mem_append.mp h with h1 | h1
      · rcases move_ev s tid cx cy _ h1 with ⟨a, b, h2⟩ | ⟨a, b, h2⟩ | ⟨d1, h2⟩ <;>
          simp at h2
      · rcases closePrimary_ev _ _ h1 with h2 | h2 <;> simp at h2
    · rw [if_neg hc] at h
      rcases move_ev s tid cx cy _ h with ⟨a, b, h1⟩ | ⟨a, b, h1⟩ | ⟨d1, h1⟩ <;>
        simp at h1
  | fire =>
    exfalso
    simp only [step] at h
    exact absurd (fire_ev s _ h) (by simp)

/-- The double flag, once set, stays set through any step that does not
close the session (an endEv-emitting step). -/
theorem dbl_sticky (s : DriverState) (i : DriverIn) (hI : DInv s)
    (hd : s.dbl = some true) :
    (step s i).1.dbl = some true ∨ Ev.endEv ∈ (step s i).2 := by
  cases i with
  | down tid cx cy =>
    simp only [step]
    rcases down_split s tid cx cy with he | ⟨_, he⟩ | ⟨_, he⟩ <;> rw [he]
    · exact Or.inl hd
    · have ha : s.active0 ≠ none := hI.2 (by rw [hd]; simp)
      have hend := closePrimary_endEv s ha
      rcases downPrimary_split s tid cx cy with hp | hp <;> rw [hp] <;>
        exact Or.inr (List.mem_append.mpr (Or.inl hend))
    · exact Or.inl (downSecondary_fst s tid cx cy).1
  | move tid cx cy =>
    refine Or.inl ?_
    simp only [step]
    rw [(move_keeps s tid cx cy).2.2.1]
    exact hd
  | up tid cx cy =>
    rw [step_up_eq]
    by_cases hc : (handleTouchMove s tid cx cy).1.active0 = some tid
    · rw [if_pos hc]
      refine Or.inr (List.mem_append.mpr (Or.inr ?_))
      exact closePrimary_endEv _ (by rw [hc]; simp)
    · rw [if_neg hc]
      refine Or.inl ?_
      rw [(move_keeps s tid cx cy).2.2.1]
      exact hd
  | fire =>
    refine Or.inl ?_
    simp only [step]
    rw [(fire_keeps s).2.1]
    exact hd

/-- A step arms the hold timeout only while starting a new session, with
a begin event. -/
theorem htime_arm (s : DriverState) (i : DriverIn)
    (h : (step s i).1.htime = true) :
    s.htime = true ∨ ∃ ax ay, Ev.begin ax ay ∈ (step s i).2 := by
  cases i with
  | down tid cx cy =>
    simp only [step] at h ⊢
    rcases down_split s tid cx cy with he | ⟨_, he⟩ | ⟨_, he⟩ <;> rw [he] at h ⊢
    · exact Or.inl h
    · rcases downPrimary_split s tid cx cy with hp | hp <;> rw [hp] at h ⊢
      · exact Or.inl (closePrimary_htime s h).1
      · refine Or.inr ⟨cx - s.rectx, cy - s.recty, ?_⟩
        exact List.mem_append.mpr (Or.inr (by simp))
    · refine Or.inl ?_
      rw [← (closeSecondary_keeps s).2.2.1]
      exact h
  | move tid cx cy =>
    simp only [step] at h
    rw [(move_keeps s tid cx cy).2.2.2] at h
    exact Or.inl h
  | up tid cx cy =>
    rw [step_up_eq] at h
    by_cases hc : (handleTouchMove s tid cx cy).1.active0 = some tid
    · rw [if_pos hc] at h
      have h2 := (closePrimary_htime _ h).1
      rw [(move_keeps s tid cx cy).2.2.2] at h2
      exact Or.inl h2
    · rw [if_neg hc] at h
      rw [(move_keeps s tid cx cy).2.2.2] at h
      exact Or.inl h
  | fire =>
    simp only [step] at h
    exact Or.inl ((fire_keeps s).2.2.2 h)

/-- Every step preserves the structural invariant. -/
theorem DInv_step (s : DriverState) (i : DriverIn) (hI : DInv s) :
    DInv (step s i).1 := by
  cases i with
  | down tid cx cy =>
    simp only [step]
    rcases down_split s tid cx cy with he | ⟨_, he⟩ | ⟨hcl, he⟩ <;> rw [he]
    · exact hI
    · rcases downPrimary_split s tid cx cy with hp | hp <;> rw [hp]
      · exact closePrimary_DInv s hI
      · exact ⟨fun _ => ⟨by simp, by simp, by simp⟩, fun _ => by simp⟩
    · have ha := classifyDown_secondary s tid hcl
      obtain ⟨f1, f2, f3, f4⟩ := downSecondary_fst s tid cx cy
      refine ⟨fun ht => ?_, fun _ => ?_⟩
      · rw [f3] at ht
        obtain ⟨a0, _, a2⟩ := hI.1 ht
        exact ⟨by rw [f2]; exact a0, by rw [f1]; simp, by rw [f4]; exact a2⟩
      · rw [f2]
        exact ha
  | move tid cx cy => exact move_DInv s tid cx cy hI
  | up tid cx cy =>
    rw [step_up_eq]
    by_cases hc : (handleTouchMove s tid cx cy).1.active0 = some tid
    · rw [if_pos hc]
      exact closePrimary_DInv _ (move_DInv s tid cx cy hI)
    · rw [if_neg hc]
      exact move_DInv s tid cx cy hI
  | fire =>
    simp only [step]
    obtain ⟨f1, f2, f3, f4⟩ := fire_keeps s
    refine ⟨fun ht => ?_, fun hdb => ?_⟩
    · obtain ⟨a0, a1, a2⟩ := hI.1 (f4 ht)
      exact ⟨by rw [f1]; exact a0, by rw [f2]; exact a1, by rw [f3]; exact a2⟩
    · rw [f2] at hdb
      rw [f1]
      exact hI.2 hdb

/-- A step that emits neither begin nor endEv never lowers a defined
stray maximum. -/
theorem bmaxd_step (s : DriverState) (i : DriverIn) (m0 : ℚ)
    (hb : ∀ ax ay, Ev.begin ax ay ∉ (step s i).2)
    (he : Ev.endEv ∉ (step s i).2) (hm : s.bmaxd = some m0) :
    ∃ m1, (step s i).1.bmaxd = some m1 ∧ m0 ≤ m1 := by
  cases i with
  | down tid cx cy =>
    simp only [step] at hb he ⊢
    rcases down_split s tid cx cy with hsp | ⟨_, hsp⟩ | ⟨_, hsp⟩ <;>
      rw [hsp] at hb he ⊢
    · exact ⟨m0, hm, le_refl m0⟩
    · rcases downPrimary_split s tid cx cy with hp | hp <;> rw [hp] at hb he ⊢
      · have ha : s.active0 = none := by
          by_contra ha
          exact he (List.mem_append.mpr (Or.inl (closePrimary_endEv s ha)))
        refine ⟨m0, ?_, le_refl m0⟩
        rw [closePrimary_bmaxd s ha]
        exact hm
      · exact absurd (List.mem_append.mpr (Or.inr (by simp)))
          (hb (cx - s.rectx) (cy - s.recty))
    · refine ⟨m0, ?_, le_refl m0⟩
      rw [(downSecondary_fst s tid cx cy).2.2.2]
      exact hm
  | move tid cx cy => exact move_bmaxd s tid cx cy m0 hm
  | up tid cx cy =>
    rw [step_up_eq] at hb he ⊢
    by_cases hc : (handleTouchMove s tid cx cy).1.active0 = some tid
    · rw [if_pos hc] at he
      exact absurd (List.mem_append.mpr
        (Or.inr (closePrimary_endEv _ (by rw [hc]; simp)))) he
    · rw [if_neg hc]
      exact move_bmaxd s tid cx cy m0 hm
  | fire =>
    simp only [step]
    refine ⟨m0, ?_, le_refl m0⟩
    rw [(fire_keeps s).2.2.1]
    exact hm

/-- The structural invariant holds along every trace. -/
theorem DInv_stateAt (s : DriverState) (l : List DriverIn) (h : DInv s) :
    DInv (stateAt s l) := by
  induction l generalizing s with
  | nil => exact h
  | cons i l ih => exact ih (step s i).1 (DInv_step s i h)

/-- A property preserved by every step except designated breaker steps
can only be lost across a trace at a breaker step. -/
theorem persistUntil (P : DriverState → Prop) (B : DriverState → DriverIn → Prop)
    (hstep : ∀ s i, P s → P (step s i).1 ∨ B s i) :
    ∀ (l : List DriverIn) (s : DriverState), P s → ¬ P (stateAt s l) →
      ∃ la i lb, l = la ++ i :: lb ∧ B (stateAt s la) i := by
  intro l
  induction l with
  | nil => exact fun s hp hnp => absurd hp hnp
  | cons i l ih =>
    intro s hp hnp
    rcases hstep s i hp with h1 | h1
    · obtain ⟨la, j, lb, heq, hB⟩ := ih (step s i).1 h1 hnp
      exact ⟨i :: la, j, lb, by rw [heq, List.cons_append], hB⟩
    · exact ⟨[], i, l, rfl, h1⟩

/-- C9.  Along every input trace from a state satisfying the structural
invariant: a hold is emitted only by a timer-expiry step at which the
session is still open, the sticky double flag is still false and the
running stray maximum is within the threshold, and the expiry disarms
the timeout; once a double was emitted, a later hold requires a
session-closing (endEv-emitting) step in between; two holds require a
new session (a begin-emitting step) in between; and while no begin or
endEv is emitted the running stray maximum never decreases. -/
theorem hold_gating (s0 : DriverState) (hInv : DInv s0) (l : List DriverIn) :
    (∀ l1 inp l2, l = l1 ++ inp :: l2 →
      Ev.hold ∈ (step (stateAt s0 l1) inp).2 →
      inp = DriverIn.fire ∧ holdReady (stateAt s0 l1) ∧
      (step (stateAt s0 l1) inp).1.htime = false) ∧
    (∀ l1 i1 l2 i2 l3, l = l1 ++ i1 :: l2 ++ i2 :: l3 →
      (∃ d0, Ev.double d0 ∈ (step (stateAt s0 l1) i1).2) →
      Ev.hold ∈ (step (stateAt s0 (l1 ++ i1 :: l2)) i2).2 →
      ∃ la ik lb, l2 = la ++ ik :: lb ∧
        Ev.endEv ∈ (step (stateAt s0 (l1 ++ i1 :: la)) ik).2) ∧
    (∀ l1 i1 l2 i2 l3, l = l1 ++ i1 :: l2 ++ i2 :: l3 →
      Ev.hold ∈ (step (stateAt s0 l1) i1).2 →
      Ev.hold ∈ (step (stateAt s0 (l1 ++ i1 :: l2)) i2).2 →
      ∃ la ik lb ax ay, l2 = la ++ ik :: lb ∧
        Ev.begin ax ay ∈ (step (stateAt s0 (l1 ++ i1 :: la)) ik).2) ∧
    (∀ l1 inp l2 m0, l = l1 ++ inp :: l2 →
      (∀ ax ay, Ev.begin ax ay ∉ (step (stateAt s0 l1) inp).2) →
      Ev.endEv ∉ (step (stateAt s0 l1) inp).2 →
      (stateAt s0 l1).bmaxd = some m0 →
      ∃ m1, (step (stateAt s0 l1) inp).1.bmaxd = some m1 ∧ m0 ≤ m1) := by
  have hsplit : ∀ l1 (i1 : DriverIn) la,
      stateAt s0 (l1 ++ i1 :: la) = stateAt (step (stateAt s0 l1) i1).1 la := by
    intro l1 i1 la
    rw [stateAt_append]
    rfl
  refine ⟨?_, ?_, ?_, ?_⟩
  · intro l1 inp l2 _ hmem
    exact hold_step (stateAt s0 l1) inp (DInv_stateAt s0 l1 hInv) hmem
  · intro l1 i1 l2 i2 l3 _ hdbl hh
    obtain ⟨d0, hd0⟩ := hdbl
    have hIA : DInv (stateAt s0 l1) := DInv_stateAt s0 l1 hInv
    have hA1 : (step (stateAt s0 l1) i1).1.dbl = some true :=
      double_step (stateAt s0 l1) i1 d0 hd0
    have hIA1 : DInv (step (stateAt s0 l1) i1).1 :=
      DInv_step (stateAt s0 l1) i1 hIA
    have hBdbl : (stateAt s0 (l1 ++ i1 :: l2)).dbl = some false :=
      (hold_step _ i2 (DInv_stateAt s0 (l1 ++ i1 :: l2) hInv) hh).2.1.2.2.2.1
    have hnot : ¬ (DInv (stateAt (step (stateAt s0 l1) i1).1 l2) ∧
        (stateAt (step (stateAt s0 l1) i1).1 l2).dbl = some true) := by
      rw [← hsplit l1 i1 l2]
      intro hcon
      rw [hBdbl] at hcon
      simp at hcon
    obtain ⟨la, ik, lb, hdec, hB⟩ :=
      persistUntil (fun s => DInv s ∧ s.dbl = some true)
        (fun s i => Ev.endEv ∈ (step s i).2)
        (fun s i hp => by
          rcases dbl_sticky s i hp.1 hp.2 with h3 | h3
          · exact Or.inl ⟨DInv_step s i hp.1, h3⟩
          · exact Or.inr h3)
        l2 (step (stateAt s0 l1) i1).1 ⟨hIA1, hA1⟩ hnot
    refine ⟨la, ik, lb, hdec, ?_⟩
    rw [hsplit l1 i1 la]
    exact hB
  · intro l1 i1 l2 i2 l3 _ hh1 hh2
    have hoff : (step (stateAt s0 l1) i1).1.htime = false :=
      (hold_step (stateAt s0 l1) i1 (DInv_stateAt s0 l1 hInv) hh1).2.2
    have hon : (stateAt s0 (l1 ++ i1 :: l2)).htime = true :=
      (hold_step _ i2 (DInv_stateAt s0 (l1 ++ i1 :: l2) hInv) hh2).2.1.1
    have hnot : ¬ (stateAt (step (stateAt s0 l1) i1).1 l2).htime = false := by
      rw [← hsplit l1 i1 l2, hon]
      simp
    obtain ⟨la, ik, lb, hdec, hB⟩ :=
      persistUntil (fun s => s.htime = false)
        (fun s i => ∃ ax ay, Ev.begin ax ay ∈ (step s i).2)
        (fun s i hp => by
          rcases hht : (step s i).1.htime with _ | _
          · exact Or.inl hht
          · rcases htime_arm s i hht with h3 | h3
            · rw [hp] at h3
              exact absurd h3 (by simp)
            · exact Or.inr h3)
        l2 (step (stateAt s0 l1) i1).1 hoff hnot
    obtain ⟨ax, ay, hB2⟩ := hB
    refine ⟨la, ik, lb, ax, ay, hdec, ?_⟩
    rw [hsplit l1 i1 la]
    exact hB2
  · intro l1 inp l2 m0 _ hb he hm
    exact bmaxd_step (stateAt s0 l1) inp m0 hb he hm

/-- Witness for C9: from a fresh driver, a primary touch down at the
origin followed by the timer expiry emits hold, and the theorem applies
to that trace: the expiry step satisfies the gating conditions and
disarms the timeout. -/
theorem hold_gating_witness :
    Ev.hold ∈ (step (stateAt wit9 [DriverIn.down (PointerId.touch 1) 0 0])
      DriverIn.fire).2 ∧
    (DriverIn.fire = DriverIn.fire ∧
     holdReady (stateAt wit9 [DriverIn.down (PointerId.touch 1) 0 0]) ∧
     (step (stateAt wit9 [DriverIn.down (PointerId.touch 1) 0 0])
       DriverIn.fire).1.htime = false) := by
  have hinv : DInv wit9 := by
    constructor
    · intro ht
      simp [wit9, initState] at ht
    · intro hd
      simp [wit9, initState] at hd
  have hmem : Ev.hold ∈ (step (stateAt wit9
      [DriverIn.down (PointerId.touch 1) 0 0]) DriverIn.fire).2 := by
    norm_num [stateAt, step, handleTouchDown, classifyDown, downPrimary,
      closePrimary, closeSecondary, overlayHit, ovHitX, ovHitY, fireHold,
      strayExceeds, wit9, initState]
  exact ⟨hmem,
    (hold_gating wit9 hinv
      [DriverIn.down (PointerId.touch 1) 0 0, DriverIn.fire]).1
      [DriverIn.down (PointerId.touch 1) 0 0] DriverIn.fire [] rfl hmem⟩
